import Mathlib

/-!
Shallow embedding of the orchestration core of the Amazon-DataProcessing-Agent
sample (retry logic, streaming assembly, context window, thinking-trace
extraction, and usage-metrics accumulation), together with proofs about it.

Sources embedded:
* `core/strands_bedrock_agent.py` — `StrandsBedrockAgent.call_agent_with_retry`
* `core/streaming_handler.py` — `StreamingHandler`
* `core/chat_history_manager.py` — `ChatHistoryManager`
* `core/agent_manager.py` — `MCPAgentManager._extract_thinking`,
  `_clean_response`, `_extract_metrics`, `_sanitize_markdown`,
  `_combine_thinking_with_metrics`
* `core/session_state.py` — `SessionState`

Python strings are modelled as `String`/`List Char`; Python ints as `Nat`/`Int`
(no machine overflow is involved anywhere in the embedded code); Python floats
as `ℚ` (the embedded arithmetic is sums and products of decimal constants, and
the claims under study are relational, so exact arithmetic is the faithful
reading); exceptions as explicit outcome values.  All recursive functions are
structural or fuel-based so that concrete runs reduce in the kernel.
-/

namespace DPAgent

/-! ### Generic character/string utilities (models of Python `str` methods) -/

/-- Python's whitespace class `\s` for the ASCII range (space, tab, newline,
carriage return, vertical tab, form feed), as used by `str.strip` and
`re \s`. -/
def isPySpace (c : Char) : Bool :=
  c == ' ' || c == '\t' || c == '\n' || c == '\r' || c == '\x0b' || c == '\x0c'

/-- `leadsWith pat l` is true when `pat` is an initial run of `l`
(model of "the string `l` starts with `pat`"). -/
def leadsWith : List Char → List Char → Bool
  | [], _ => true
  | _ :: _, [] => false
  | c :: cs, x :: xs => c == x && leadsWith cs xs

/-- First occurrence of `pat` in `l`: returns the part before the occurrence
and the part after it (model of one step of `re`/`str.find` scanning,
leftmost match). -/
def splitFirst (pat : List Char) : List Char → Option (List Char × List Char)
  | [] => none
  | x :: xs =>
    if leadsWith pat (x :: xs) = true then some ([], (x :: xs).drop pat.length)
    else
      match splitFirst pat xs with
      | some (p, r) => some (x :: p, r)
      | none => none

/-- Fuel-driven scanner behind `pySplit`: splits on every occurrence of `sep`,
left to right, accumulating the current chunk in reverse in `acc`.  Fuel
`l.length` always suffices since every step consumes at least one character. -/
def splitSeqAux (sep : List Char) : Nat → List Char → List Char → List (List Char)
  | 0, l, acc => [acc.reverse ++ l]
  | fuel + 1, l, acc =>
    match l with
    | [] => [acc.reverse]
    | x :: xs =>
      if sep ≠ [] ∧ leadsWith sep (x :: xs) = true then
        acc.reverse :: splitSeqAux sep fuel (xs.drop (sep.length - 1)) []
      else splitSeqAux sep fuel xs (x :: acc)

/-- Model of Python `str.split(sep)` for a non-empty separator. -/
def pySplit (sep l : List Char) : List (List Char) :=
  splitSeqAux sep l.length l []

/-- Model of Python's substring test `pat in s`, for non-empty `pat`. -/
def strContains (s pat : String) : Bool :=
  (splitFirst pat.data s.data).isSome

/-- Model of Python `str.lower()` (character-wise lowering; the messages under
study are ASCII). -/
def pyLower (s : String) : String := ⟨s.data.map Char.toLower⟩

/-- Model of Python `str.strip()`: drop whitespace from both ends. -/
def pyStrip (l : List Char) : List Char :=
  (((l.dropWhile isPySpace).reverse.dropWhile isPySpace).reverse)

/-- Scanner behind `wsCollapse`; the flag records whether we are inside a
whitespace run that has already emitted its single `' '`. -/
def wsCollapseAux : Bool → List Char → List Char
  | _, [] => []
  | inRun, x :: xs =>
    if isPySpace x then
      if inRun then wsCollapseAux true xs
      else ' ' :: wsCollapseAux true xs
    else x :: wsCollapseAux false xs

/-- Model of `re.sub(r"\s+", " ", text)`: every maximal whitespace run becomes
a single space. -/
def wsCollapse (l : List Char) : List Char := wsCollapseAux false l

/-- Numeric value of a decimal digit character. -/
def charDigitVal (c : Char) : Nat := c.toNat - 48

/-- Decimal value of a digit string (the computation performed by Python
`int(...)` on a string of digits). -/
def decimalValue (l : List Char) : Nat :=
  l.foldl (fun a c => a * 10 + charDigitVal c) 0

/-- Model of Python `int(s)` restricted to its defined case: `some` of the
decimal value when `s` is a non-empty string of digits, `none` (Python would
raise `ValueError`) otherwise. -/
def decimalDigits? (l : List Char) : Option Nat :=
  if l ≠ [] ∧ l.all Char.isDigit = true then some (decimalValue l) else none

/-! ### `_sanitize_markdown` (streaming_handler.py:116-148, agent_manager.py:411-443)

The source applies `re.sub(r"^#{k}\s+(.+)$", r"**\1**", text, flags=MULTILINE)`
for k = 2..6 and then 1, followed by the same patterns anchored at a literal
`\n` (which, after the MULTILINE passes, match nothing new).  This is modelled
line-wise: a line made of `k` leading `#` (1 ≤ k ≤ 6) followed by at least one
whitespace character and at least one further character is rewritten to
`**content**` where `content` is what the greedy `\s+(.+)$` match captures. -/

/-- The `(.+)` group captured by `^#+\s+(.+)$` applied after the `#` run:
`t` must begin with whitespace; the group is the rest after the whitespace run,
or — when `t` is all whitespace of length ≥ 2 — the single last character that
`\s+` gives back to `.+` on backtracking. -/
def headerContent (t : List Char) : Option (List Char) :=
  match t with
  | [] => none
  | c :: _ =>
    if isPySpace c = false then none
    else
      let r := t.dropWhile isPySpace
      if r ≠ [] then some r
      else if 2 ≤ t.length then some (t.drop (t.length - 1)) else none

/-- One line of the markdown-header rewrite. -/
def headerBold (line : List Char) : List Char :=
  let h := (line.takeWhile (fun c => c == '#')).length
  if 1 ≤ h ∧ h ≤ 6 then
    match headerContent (line.drop h) with
    | some content => '*' :: '*' :: (content ++ ['*', '*'])
    | none => line
  else line

/-- Split a text into its lines (separator `'\n'`). -/
def splitLines (l : List Char) : List (List Char) := pySplit ['\n'] l

/-- Rejoin lines with `'\n'` (inverse of `splitLines`). -/
def joinLines : List (List Char) → List Char
  | [] => []
  | [l] => l
  | l :: rest => l ++ '\n' :: joinLines rest

/-- Model of `_sanitize_markdown` (identical in `StreamingHandler` and
`MCPAgentManager`). -/
def sanitizeMarkdown (text : String) : String :=
  ⟨joinLines ((splitLines text.data).map headerBold)⟩

/-! ### `StreamingHandler` (streaming_handler.py)

A callback invocation receives keyword arguments; the ones with a state
effect are `data` (a text chunk), `current_tool_use` (carrying a tool name;
an empty name is falsy and ignored by the source) and `complete`.  The
remaining lifecycle keywords (`init_event_loop`, `start_event_loop`, `start`,
`message`, `force_stop`) only print debug output and touch no state, so they
are not represented.  The Streamlit placeholders (`message_placeholder`,
`tool_placeholder`) are created together by `setup_placeholders`; they are
modelled as an optional `Sink` whose methods may raise (returning `true`),
standing for any exception thrown by the display layer. -/

/-- One keyword-argument dictionary passed to `callback_handler`. -/
structure Event where
  data : Option String
  currentToolUse : Option String
  complete : Bool
deriving DecidableEq

/-- The attached display placeholders; each method reports whether the
display call raised an exception. -/
structure Sink where
  markdownRaises : String → Bool
  infoRaises : String → Bool
  successRaises : String → Bool

/-- The mutable state of a `StreamingHandler` object (placeholders are held
separately as the optional `Sink`). -/
structure StreamingHandler where
  content : String
  currentTool : Option String
  toolCount : Nat
deriving DecidableEq

/-- `StreamingHandler.__init__`. -/
def streamingHandlerInit : StreamingHandler :=
  { content := "", currentTool := none, toolCount := 0 }

/-- The `st.info` message shown when a tool starts (streaming_handler.py:65). -/
def toolRunningMsg (count : Nat) (name : String) : String :=
  "🔧 **Tool #" ++ Nat.repr count ++ ":** " ++ name ++ " - Running..."

/-- The `st.success` message shown on completion (streaming_handler.py:73). -/
def toolCompletedMsg (count : Nat) (name : String) : String :=
  "✅ **Tool #" ++ Nat.repr count ++ ":** " ++ name ++ " - Completed!"

/-- The `if "data" in kwargs` block: append the chunk to the buffer, then
update the display.  Returns the new state and whether the display raised. -/
def handleData (sink : Option Sink) (s : StreamingHandler) (ev : Event) :
    StreamingHandler × Bool :=
  match ev.data with
  | none => (s, false)
  | some t =>
    let s1 := { s with content := s.content ++ t }
    match sink with
    | none => (s1, false)
    | some k => (s1, k.markdownRaises (sanitizeMarkdown s1.content ++ "\n"))

/-- The `if "current_tool_use" in kwargs ...` block. -/
def handleToolUse (sink : Option Sink) (s : StreamingHandler) (ev : Event) :
    StreamingHandler × Bool :=
  match ev.currentToolUse with
  | none => (s, false)
  | some name =>
    if name = "" then (s, false)
    else if s.currentTool = some name then (s, false)
    else
      let s2 := { s with currentTool := some name, toolCount := s.toolCount + 1 }
      match sink with
      | none => (s2, false)
      | some k => (s2, k.infoRaises (toolRunningMsg s2.toolCount name))

/-- The `if kwargs.get("complete", False)` block: show the completion notice
(when a tool is active and a placeholder exists), then clear `current_tool`.
If the display raises, `self.current_tool = None` is skipped. -/
def handleComplete (sink : Option Sink) (s : StreamingHandler) (ev : Event) :
    StreamingHandler × Bool :=
  if ev.complete then
    match sink, s.currentTool with
    | some k, some tool =>
      if k.successRaises (toolCompletedMsg s.toolCount tool) then (s, true)
      else ({ s with currentTool := none }, false)
    | _, _ => ({ s with currentTool := none }, false)
  else (s, false)

/-- The body of `callback_handler` without its `try/except`: the three blocks
run in order; a display exception aborts the rest of the body but keeps all
attribute mutations made so far. -/
def eventBody (sink : Option Sink) (s : StreamingHandler) (ev : Event) :
    StreamingHandler × Bool :=
  match handleData sink s ev with
  | (s1, true) => (s1, true)
  | (s1, false) =>
    match handleToolUse sink s1 ev with
    | (s2, true) => (s2, true)
    | (s2, false) => handleComplete sink s2 ev

/-- `StreamingHandler.callback_handler`: the body runs under
`try/except Exception` which swallows any raised exception, so the handler
always returns the (possibly partially updated) state. -/
def callbackHandler (sink : Option Sink) (s : StreamingHandler) (ev : Event) :
    StreamingHandler :=
  (eventBody sink s ev).1

/-- Feed a list of events through `callback_handler` starting from state `s`. -/
def runEvents (sink : Option Sink) (s : StreamingHandler) (evs : List Event) :
    StreamingHandler :=
  evs.foldl (callbackHandler sink) s

/-- Feed a list of events through a freshly constructed handler. -/
def processEvents (sink : Option Sink) (evs : List Event) : StreamingHandler :=
  runEvents sink streamingHandlerInit evs

/-- `StreamingHandler.finalize`: re-renders the final content on the display
and returns `self.content`; no attribute is modified. -/
def StreamingHandler.finalize (s : StreamingHandler) : String × StreamingHandler :=
  (s.content, s)

/-- Ordered concatenation of all text-delta payloads of an event sequence. -/
def textDeltas : List Event → String
  | [] => ""
  | ev :: evs => (ev.data.getD "") ++ textDeltas evs

/-! ### `StrandsBedrockAgent.call_agent_with_retry` (strands_bedrock_agent.py:67-158) -/

/-- A Python exception raised by the backend call: either one of the four
connection-timeout exception types caught by the first `except` clause, or any
other exception carrying its `str(e)` message. -/
inductive PyExc where
  | readTimeout
  | connectTimeout
  | endpointConnection
  | urllib3ReadTimeout
  | generic (msg : String)
deriving DecidableEq

/-- The substring test of strands_bedrock_agent.py:130-138 on an already
lower-cased message. -/
def isRetryableText (e : String) : Bool :=
  strContains e "modelstreamerrorexception" || strContains e "throttling" ||
  strContains e "timeout" || strContains e "unexpected error" ||
  strContains e "read timed out" || strContains e "connection pool" ||
  strContains e "awshttpsconnectionpool"

/-- How `call_agent_with_retry` classifies a raised exception. -/
inductive ErrClass where
  | connTimeout
  | retryableMsg
  | nonRetryable
deriving DecidableEq

/-- Classification: the four timeout types are always retryable; any other
exception is retryable exactly when its lower-cased message matches one of the
listed substrings. -/
def classify : PyExc → ErrClass
  | .readTimeout => .connTimeout
  | .connectTimeout => .connTimeout
  | .endpointConnection => .connTimeout
  | .urllib3ReadTimeout => .connTimeout
  | .generic msg =>
    if isRetryableText (pyLower msg) = true then .retryableMsg else .nonRetryable

/-- Message of the exception raised after exhausting retries on connection
timeouts (strands_bedrock_agent.py:121). -/
def connUnavailableMsg : String :=
  "Unable to connect to AWS Bedrock service after multiple attempts. Please check your internet connection and try again."

/-- Message of the exception raised after exhausting retries on transient
service errors (strands_bedrock_agent.py:152). -/
def serviceUnavailableMsg : String :=
  "Service temporarily unavailable after multiple attempts. Please try again in a few moments."

/-- How one whole call of `call_agent_with_retry` ends:
a returned value, the wrapped retries-exhausted exception, a re-raised
non-retryable exception, or falling off the loop returning `None`
(which happens exactly when `max_retries = 0`). -/
inductive InvokeOutcome (α : Type) where
  | ok (a : α)
  | unavailable (msg : String)
  | raised (e : PyExc)
  | noResult
deriving DecidableEq

/-- Whether an outcome is the retries-exhausted failure. -/
def InvokeOutcome.isUnavailable : InvokeOutcome α → Bool
  | .unavailable _ => true
  | _ => false

/-- Observable result of a run: the outcome, how many backend calls were
made, and the delays slept (in order). -/
structure InvokeResult (α : Type) where
  outcome : InvokeOutcome α
  calls : Nat
  sleeps : List Nat

/-- The retry loop, one constructor case per loop iteration.  `fuel` is the
number of remaining iterations of `for attempt in range(max_retries)`,
`attempt` the current iteration index, `delay` the current `retry_delay`,
`calls`/`sleepAcc` the instrumentation accumulators.  The backend is a
function from the attempt index to a result or raised exception. -/
def retryAux (backend : Nat → Except PyExc α) (maxRetries : Nat) :
    Nat → Nat → Nat → Nat → List Nat → InvokeResult α
  | 0, _, _, calls, sleepAcc => ⟨.noResult, calls, sleepAcc.reverse⟩
  | fuel + 1, attempt, delay, calls, sleepAcc =>
    match backend attempt with
    | .ok a => ⟨.ok a, calls + 1, sleepAcc.reverse⟩
    | .error e =>
      match classify e with
      | .connTimeout =>
        if attempt < maxRetries - 1 then
          retryAux backend maxRetries fuel (attempt + 1) (delay * 2) (calls + 1)
            (delay :: sleepAcc)
        else ⟨.unavailable connUnavailableMsg, calls + 1, sleepAcc.reverse⟩
      | .retryableMsg =>
        if attempt < maxRetries - 1 then
          retryAux backend maxRetries fuel (attempt + 1) (delay * 2) (calls + 1)
            (delay :: sleepAcc)
        else ⟨.unavailable serviceUnavailableMsg, calls + 1, sleepAcc.reverse⟩
      | .nonRetryable => ⟨.raised e, calls + 1, sleepAcc.reverse⟩

/-- `call_agent_with_retry` with explicit `max_retries` and `initial_delay`. -/
def callAgentWithRetry (backend : Nat → Except PyExc α)
    (maxRetries initialDelay : Nat) : InvokeResult α :=
  retryAux backend maxRetries maxRetries 0 initialDelay 0 []

/-- `StrandsBedrockAgent.MAX_RETRIES`. -/
def MAX_RETRIES : Nat := 3

/-- `StrandsBedrockAgent.INITIAL_RETRY_DELAY` (seconds). -/
def INITIAL_RETRY_DELAY : Nat := 2

/-- A backend stub that raises a throttling error on every attempt
(a retryable error per strands_bedrock_agent.py:132). -/
def alwaysThrottling : Nat → Except PyExc Unit :=
  fun _ => .error (.generic "ThrottlingException: Rate exceeded")

/-! ### `ChatHistoryManager` (chat_history_manager.py) -/

/-- One Bedrock content block (`{"text": ...}`). -/
structure ContentBlock where
  text : String
deriving DecidableEq

/-- A stored message's `content` field: either a plain string (as written by
`add_message`) or an already structured block list. -/
inductive MsgContent where
  | str (s : String)
  | blocks (l : List ContentBlock)
deriving DecidableEq

/-- One entry of `st.session_state.chat_history`. -/
structure ChatMessage where
  role : String
  content : MsgContent
  timestamp : String
  thinking : Option String
deriving DecidableEq

/-- A message formatted for the model (`{"role": ..., "content": [...]}`). -/
structure FormattedMessage where
  role : String
  content : List ContentBlock
deriving DecidableEq

/-- Model of the Python slice `l[-n:]` (for an `int` slice bound `-n`):
for `n ≥ 1` the last `n` elements, for `n = 0` the whole list (since `-0 = 0`),
and for `n < 0` the slice `l[(-n):]`. -/
def pyLastSlice (n : Int) (l : List α) : List α :=
  if 0 < n then l.drop (l.length - n.toNat)
  else if n = 0 then l
  else l.drop (-n).toNat

/-- `MAX_CONTEXT_MESSAGES` (config/constants.py), as the slice bound used in
`chat_history[-MAX_CONTEXT_MESSAGES:]`. -/
def MAX_CONTEXT_MESSAGES : Int := 10

/-- Whether a stored message participates in the context
(`msg["role"] in ["user", "assistant"]`). -/
def isContextRole (m : ChatMessage) : Bool :=
  m.role == "user" || m.role == "assistant"

/-- Formatting of one message for the model: string content is wrapped into a
single text block, structured content is passed through. -/
def formatMessage (m : ChatMessage) : FormattedMessage :=
  { role := m.role,
    content :=
      match m.content with
      | .str s => [⟨s⟩]
      | .blocks l => l }

/-- The per-message step of `get_context_messages`: format the message when
its role participates, skip it otherwise. -/
def formatContextMessage (m : ChatMessage) : Option FormattedMessage :=
  if isContextRole m = true then some (formatMessage m) else none

/-- `ChatHistoryManager.get_context_messages` with the slice bound as a
parameter: take the last `n` messages of the history, then keep and format
the user/assistant ones. -/
def contextWindow (n : Int) (history : List ChatMessage) :
    List FormattedMessage :=
  (pyLastSlice n history).filterMap formatContextMessage

/-- `ChatHistoryManager.get_context_messages` as in the source, with the
constant bound. -/
def getContextMessages (history : List ChatMessage) : List FormattedMessage :=
  contextWindow MAX_CONTEXT_MESSAGES history

/-- A plain user message (as appended by `add_message("user", text)`). -/
def mkUserMsg (text : String) : ChatMessage :=
  { role := "user", content := .str text, timestamp := "", thinking := none }

/-! ### `_extract_thinking` / `_clean_response` (agent_manager.py:292-319) -/

/-- The opening delimiter of an embedded reasoning trace. -/
def thinkingOpenTag : List Char := "<thinking>".data

/-- The closing delimiter of an embedded reasoning trace. -/
def thinkingCloseTag : List Char := "</thinking>".data

/-- `_extract_thinking`: `re.search(r"<thinking>(.*?)</thinking>", s, DOTALL)`
takes the leftmost opening tag that is followed by a closing tag and captures
lazily up to the first closing tag after it; the capture is stripped,
whitespace-normalized and markdown-sanitized.  No match yields `""`. -/
def extractThinking (content : String) : String :=
  match splitFirst thinkingOpenTag content.data with
  | none => ""
  | some (_, rest) =>
    match splitFirst thinkingCloseTag rest with
    | none => ""
    | some (body, _) => sanitizeMarkdown ⟨wsCollapse (pyStrip body)⟩

/-- The scanning pass of `re.sub(r"<thinking>.*?</thinking>", "", s, DOTALL)`:
repeatedly find the next opening tag with a closing tag after it, delete
through the closing tag, and continue scanning after the deleted span
(replacements are not rescanned).  Each deletion removes at least the two
tags, so fuel `l.length` always suffices. -/
def removeThinkingAux : Nat → List Char → List Char
  | 0, l => l
  | fuel + 1, l =>
    match splitFirst thinkingOpenTag l with
    | none => l
    | some (pre, rest) =>
      match splitFirst thinkingCloseTag rest with
      | none => l
      | some (_, post) => pre ++ removeThinkingAux fuel post

/-- The substitution pass over a whole text. -/
def removeThinking (l : List Char) : List Char := removeThinkingAux l.length l

/-- `_clean_response`: delete the delimited spans, strip, sanitize markdown. -/
def cleanResponse (content : String) : String :=
  sanitizeMarkdown ⟨pyStrip (removeThinking content.data)⟩

/-- `_combine_thinking_with_metrics` returns `thinking + metrics_section`;
the section text is built from the metrics dictionary and is opaque to the
claims under study, so it is taken as a parameter. -/
def combineThinkingWithMetrics (thinking metricsSection : String) : String :=
  thinking ++ metricsSection

/-! ### `_extract_metrics` (agent_manager.py:321-409), `SessionState`
(session_state.py) and `clear_history` (chat_history_manager.py:73-77) -/

/-- `response.metrics` as read by `_extract_metrics`: each field is `none`
when the corresponding attribute/key is absent.  Only the parts with an
effect on session counters are carried: the accumulated usage token pair and
the `call_count` of each entry of `tool_metrics` (names, inputs and times
feed only the displayed strings). -/
structure AgentMetrics where
  accumulatedUsage : Option (Nat × Nat)
  toolCallCounts : Option (List Nat)

/-- A backend response: `metrics` is `none` when the response object has no
`metrics` attribute. -/
structure AgentResponse where
  metrics : Option AgentMetrics

/-- Input-token price (agent_manager.py:339, `0.000003` per token). -/
def PRICE_INPUT : ℚ := 3 / 1000000

/-- Output-token price (agent_manager.py:339, `0.000015` per token). -/
def PRICE_OUTPUT : ℚ := 15 / 1000000

/-- The per-call cost `input_tokens * 0.000003 + output_tokens * 0.000015`. -/
def perCallCost (inputTokens outputTokens : Nat) : ℚ :=
  inputTokens * PRICE_INPUT + outputTokens * PRICE_OUTPUT

/-- The session state touched by the embedded operations. -/
structure AppSession where
  chatHistory : List ChatMessage
  showThinking : List (Nat × Bool)
  accumulatedTokens : String
  accumulatedCost : ℚ
  accumulatedManualCost : ℚ
  manualEngineerCost : ℚ
  manualApiPrepTime : ℚ

/-- `SessionState.initialize` defaults (session_state.py:64-79). -/
def initSessionState : AppSession :=
  { chatHistory := []
    showThinking := []
    accumulatedTokens := "Input Token: 0, Output Token: 0"
    accumulatedCost := 0
    accumulatedManualCost := 0
    manualEngineerCost := 100
    manualApiPrepTime := 30 }

/-- `ChatHistoryManager.clear_history`: empties `chat_history` and
`show_thinking` (and nothing else). -/
def clearHistory (s : AppSession) : AppSession :=
  { s with chatHistory := [], showThinking := [] }

/-- The parsing of the running `accumulated_tokens` string
(agent_manager.py:347-357): if it contains `"Input Token"`, read the input
count between `"Input Token: "` and the next `","` and the output count after
`"Output Token: "`; otherwise both existing counts are `0`. -/
def parseAccumulatedTokens (s : String) : Nat × Nat :=
  if strContains s "Input Token" = true then
    let afterIn := (pySplit "Input Token: ".data s.data).getD 1 []
    let inChunk := (pySplit [','] afterIn).getD 0 []
    let afterOut := (pySplit "Output Token: ".data s.data).getD 1 []
    ((decimalDigits? (pyStrip inChunk)).getD 0,
      (decimalDigits? (pyStrip afterOut)).getD 0)
  else (0, 0)

/-- The formatting of the running totals (agent_manager.py:364-366). -/
def formatAccumulatedTokens (i o : Nat) : String :=
  "Input Token: " ++ Nat.repr i ++ ", Output Token: " ++ Nat.repr o

/-- `manual_cost` summed over the tools of a response
(agent_manager.py:392-396): each tool contributes
`(manual_engineer_cost / 60) * ((manual_api_prep_time / 60) * call_count)`. -/
def manualCostOfTools (engCost prepTime : ℚ) (counts : List Nat) : ℚ :=
  counts.foldl (fun acc cc => acc + engCost / 60 * (prepTime / 60 * cc)) 0

/-- The session-state effect of `_extract_metrics`: with a `metrics`
attribute present, the token/cost counters advance when `accumulated_usage`
is present, and the manual-cost counter advances by the summed per-tool
manual cost (zero when `tool_metrics` is absent). -/
def extractMetrics (r : AgentResponse) (s : AppSession) : AppSession :=
  match r.metrics with
  | none => s
  | some m =>
    let s1 :=
      match m.accumulatedUsage with
      | none => s
      | some (i, o) =>
        let existing := parseAccumulatedTokens s.accumulatedTokens
        { s with
          accumulatedTokens := formatAccumulatedTokens (existing.1 + i) (existing.2 + o)
          accumulatedCost := s.accumulatedCost + perCallCost i o }
    let totalManual : ℚ :=
      match m.toolCallCounts with
      | none => 0
      | some counts =>
        manualCostOfTools s.manualEngineerCost s.manualApiPrepTime counts
    { s1 with accumulatedManualCost := s1.accumulatedManualCost + totalManual }

/-- A response carrying only accumulated usage (the shape exercised by the
metrics-accumulation scenario). -/
def usageOnlyResponse (i o : Nat) : AgentResponse :=
  { metrics := some { accumulatedUsage := some (i, o), toolCallCounts := none } }

/-! ### Concrete fixtures used by witnesses and counterexamples -/

/-- A backend stub whose first call raises an unclassified (non-retryable)
error. -/
def alwaysDenied : Nat → Except PyExc Unit :=
  fun _ => .error (.generic "AccessDeniedException: not authorized")

/-- The end-to-end scenario event stream of the specification:
`ToolStarted("calculator")`, two text deltas, completion. -/
def scenarioEvents : List Event :=
  [{ data := none, currentToolUse := some "calculator", complete := false },
   { data := some "123 * 12 = ", currentToolUse := none, complete := false },
   { data := some "1476", currentToolUse := none, complete := false },
   { data := none, currentToolUse := none, complete := true }]

/-- A diagnostic-only message (role outside `{user, assistant}`). -/
def ceSystemMsg : ChatMessage :=
  { role := "system", content := .str "sys", timestamp := "", thinking := none }

/-- Ten user messages followed by one diagnostic message: inside the last-10
slice the diagnostic message displaces a user message. -/
def ceHistory : List ChatMessage :=
  List.replicate 10 (mkUserMsg "u") ++ [ceSystemMsg]

/-! ## Lemmas about the scanning primitives -/

theorem leadsWith_append (pat t : List Char) : leadsWith pat (pat ++ t) = true := by
  induction pat with
  | nil => rfl
  | cons c cs ih => simp [leadsWith, ih]

theorem leadsWith_cons_ne {c p0 : Char} (p' xs : List Char) (h : c ≠ p0) :
    leadsWith (c :: p') (p0 :: xs) = false := by
  simp [leadsWith, h]

theorem splitFirst_at_boundary (c : Char) (p' post : List Char) :
    ∀ pre : List Char, c ∉ pre →
      splitFirst (c :: p') (pre ++ (c :: p') ++ post) = some (pre, post) := by
  intro pre
  induction pre with
  | nil =>
    intro _
    have h1 : leadsWith (c :: p') (c :: (p' ++ post)) = true := by
      simpa using leadsWith_append (c :: p') post
    simp [splitFirst, h1, List.drop_left']
  | cons p0 pre' ih =>
    intro h
    have hne : c ≠ p0 := fun he => h (he ▸ List.mem_cons_self p0 pre')
    have hrec : splitFirst (c :: p') (pre' ++ c :: (p' ++ post)) = some (pre', post) := by
      simpa using ih (fun hm => h (List.mem_cons_of_mem p0 hm))
    simp only [List.cons_append]
    rw [splitFirst]
    simp [leadsWith_cons_ne _ _ hne, hrec]

theorem splitFirst_none_of_notMem (c : Char) (p' : List Char) :
    ∀ l : List Char, c ∉ l → splitFirst (c :: p') l = none := by
  intro l
  induction l with
  | nil => intro _; rfl
  | cons x xs ih =>
    intro h
    have hne : c ≠ x := fun he => h (he ▸ List.mem_cons_self x xs)
    rw [splitFirst]
    simp [leadsWith_cons_ne _ _ hne, ih (fun hm => h (List.mem_cons_of_mem x hm))]

theorem splitSeqAux_nil (sep : List Char) (f : Nat) (acc : List Char) :
    splitSeqAux sep f [] acc = [acc.reverse] := by
  cases f <;> simp [splitSeqAux]

theorem splitSeqAux_start (c : Char) (p' rest acc : List Char) (f : Nat) :
    splitSeqAux (c :: p') (f + 1) ((c :: p') ++ rest) acc =
      acc.reverse :: splitSeqAux (c :: p') f rest [] := by
  have h1 : leadsWith (c :: p') (c :: (p' ++ rest)) = true := by
    simpa using leadsWith_append (c :: p') rest
  simp [splitSeqAux, h1, List.drop_left']

theorem splitSeqAux_scan (c : Char) (p' : List Char) :
    ∀ (pre : List Char) (f : Nat) (l acc : List Char), c ∉ pre → pre.length ≤ f →
      splitSeqAux (c :: p') f (pre ++ l) acc =
        splitSeqAux (c :: p') (f - pre.length) l (pre.reverse ++ acc) := by
  intro pre
  induction pre with
  | nil => intro f l acc _ _; simp
  | cons p0 pre' ih =>
    intro f l acc hmem hf
    obtain ⟨f', rfl⟩ : ∃ f', f = f' + 1 := ⟨f - 1, by simp at hf; omega⟩
    have hne : c ≠ p0 := fun he => hmem (he ▸ List.mem_cons_self p0 pre')
    simp only [List.cons_append]
    rw [splitSeqAux]
    simp only [leadsWith_cons_ne _ _ hne, and_false, if_false, Bool.false_eq_true]
    rw [ih f' l (p0 :: acc) (fun hm => hmem (List.mem_cons_of_mem p0 hm))
      (by simp at hf; omega)]
    have harith : f' + 1 - (p0 :: pre').length = f' - pre'.length := by
      simp
    have hlist : (p0 :: pre').reverse ++ acc = pre'.reverse ++ (p0 :: acc) := by
      simp
    rw [harith, hlist]

theorem splitSeqAux_no_occurrence (c : Char) (p' : List Char) (l acc : List Char)
    (f : Nat) (hmem : c ∉ l) (hf : l.length ≤ f) :
    splitSeqAux (c :: p') f l acc = [acc.reverse ++ l] := by
  have h := splitSeqAux_scan c p' l f [] acc hmem hf
  simp only [List.append_nil] at h
  rw [h, splitSeqAux_nil]
  simp

/-! ## Lemmas about line splitting, stripping and whitespace collapsing -/

theorem splitSeqAux_ne_nil (sep : List Char) (f : Nat) (l acc : List Char) :
    splitSeqAux sep f l acc ≠ [] := by
  induction f generalizing l acc with
  | zero => simp [splitSeqAux]
  | succ f ih =>
    cases l with
    | nil => simp [splitSeqAux]
    | cons x xs =>
      rw [splitSeqAux]
      split
      · simp
      · exact ih xs (x :: acc)

theorem joinLines_cons (l : List Char) (ls : List (List Char)) (h : ls ≠ []) :
    joinLines (l :: ls) = l ++ '\n' :: joinLines ls := by
  cases ls with
  | nil => exact absurd rfl h
  | cons a t => rfl

theorem joinLines_splitSeqAux (f : Nat) :
    ∀ (l acc : List Char), l.length ≤ f →
      joinLines (splitSeqAux ['\n'] f l acc) = acc.reverse ++ l := by
  induction f with
  | zero =>
    intro l acc h
    have : l = [] := List.eq_nil_of_length_eq_zero (Nat.le_zero.mp h)
    subst this
    simp [splitSeqAux, joinLines]
  | succ f ih =>
    intro l acc h
    cases l with
    | nil => simp [splitSeqAux, joinLines]
    | cons x xs =>
      by_cases hx : x = '\n'
      · subst hx
        have hstep := splitSeqAux_start '\n' [] xs acc f
        simp only [List.nil_append, List.singleton_append] at hstep
        rw [hstep, joinLines_cons _ _ (splitSeqAux_ne_nil _ _ _ _)]
        rw [ih xs [] (by simpa using Nat.le_of_succ_le_succ h)]
        simp
      · have hguard : leadsWith ['\n'] (x :: xs) = false :=
          leadsWith_cons_ne _ _ (fun he => hx he.symm)
        rw [splitSeqAux]
        simp only [hguard, and_false, if_false, Bool.false_eq_true, ne_eq]
        rw [ih xs (x :: acc) (by simpa using Nat.le_of_succ_le_succ h)]
        simp

theorem joinLines_splitLines (l : List Char) : joinLines (splitLines l) = l := by
  simpa using joinLines_splitSeqAux l.length l [] (Nat.le_refl _)

theorem mem_splitSeqAux_subset (sep : List Char) (f : Nat) :
    ∀ (l acc chunk : List Char), chunk ∈ splitSeqAux sep f l acc →
      ∀ c, c ∈ chunk → c ∈ acc ∨ c ∈ l := by
  induction f with
  | zero =>
    intro l acc chunk hchunk c hc
    simp [splitSeqAux] at hchunk
    subst hchunk
    rcases List.mem_append.mp hc with h | h
    · exact Or.inl (List.mem_reverse.mp h)
    · exact Or.inr h
  | succ f ih =>
    intro l acc chunk hchunk c hc
    cases l with
    | nil =>
      simp [splitSeqAux] at hchunk
      subst hchunk
      exact Or.inl (List.mem_reverse.mp hc)
    | cons x xs =>
      rw [splitSeqAux] at hchunk
      split at hchunk
      · rcases List.mem_cons.mp hchunk with h | h
        · subst h
          exact Or.inl (List.mem_reverse.mp hc)
        · rcases ih _ [] chunk h c hc with h' | h'
          · simp at h'
          · exact Or.inr (List.mem_cons_of_mem x (List.drop_subset _ _ h'))
      · rcases ih xs (x :: acc) chunk hchunk c hc with h' | h'
        · rcases List.mem_cons.mp h' with h'' | h''
          · exact Or.inr (h'' ▸ List.mem_cons_self x xs)
          · exact Or.inl h''
        · exact Or.inr (List.mem_cons_of_mem x h')

theorem takeWhile_hash_nil {l : List Char} (h : '#' ∉ l) :
    l.takeWhile (fun c => c == '#') = [] := by
  cases l with
  | nil => rfl
  | cons x xs =>
    have hne : x ≠ '#' := fun he => h (he ▸ List.mem_cons_self x xs)
    simp [List.takeWhile_cons, hne]

theorem headerBold_of_no_hash {line : List Char} (h : '#' ∉ line) :
    headerBold line = line := by
  simp [headerBold, takeWhile_hash_nil h]

theorem sanitizeMarkdown_id {s : String} (h : '#' ∉ s.data) :
    sanitizeMarkdown s = s := by
  have hmap : (splitLines s.data).map headerBold = splitLines s.data := by
    have heq : (splitLines s.data).map headerBold = (splitLines s.data).map id :=
      List.map_congr_left (fun chunk hchunk => by
        simp only [id_eq]
        apply headerBold_of_no_hash
        intro hc
        rcases mem_splitSeqAux_subset ['\n'] s.data.length s.data [] chunk hchunk '#' hc
          with h' | h'
        · simp at h'
        · exact h h')
    simpa using heq
  show (⟨joinLines ((splitLines s.data).map headerBold)⟩ : String) = s
  rw [hmap, joinLines_splitLines]

theorem mem_dropWhile_imp {p : Char → Bool} :
    ∀ {l : List Char} {a : Char}, a ∈ l.dropWhile p → a ∈ l := by
  intro l
  induction l with
  | nil => intro a h; simp at h
  | cons x xs ih =>
    intro a h
    rw [List.dropWhile_cons] at h
    split at h
    · exact List.mem_cons_of_mem x (ih h)
    · exact h

theorem mem_pyStrip_imp {l : List Char} {a : Char} (h : a ∈ pyStrip l) : a ∈ l := by
  unfold pyStrip at h
  rw [List.mem_reverse] at h
  have h1 := mem_dropWhile_imp h
  rw [List.mem_reverse] at h1
  exact mem_dropWhile_imp h1

theorem mem_wsCollapseAux_imp :
    ∀ (b : Bool) (l : List Char) (a : Char), a ∈ wsCollapseAux b l → a = ' ' ∨ a ∈ l := by
  intro b l
  induction l generalizing b with
  | nil => intro a h; simp [wsCollapseAux] at h
  | cons x xs ih =>
    intro a h
    rw [wsCollapseAux] at h
    split at h
    · split at h
      · rcases ih true a h with h' | h'
        · exact Or.inl h'
        · exact Or.inr (List.mem_cons_of_mem x h')
      · rcases List.mem_cons.mp h with h' | h'
        · exact Or.inl h'
        · rcases ih true a h' with h'' | h''
          · exact Or.inl h''
          · exact Or.inr (List.mem_cons_of_mem x h'')
    · rcases List.mem_cons.mp h with h' | h'
      · exact Or.inr (h' ▸ List.mem_cons_self x xs)
      · rcases ih false a h' with h'' | h''
        · exact Or.inl h''
        · exact Or.inr (List.mem_cons_of_mem x h'')

theorem dropWhile_eq_self_of_forall {p : Char → Bool} {l : List Char}
    (h : ∀ c ∈ l, p c = false) : l.dropWhile p = l := by
  cases l with
  | nil => rfl
  | cons x xs => simp [List.dropWhile_cons, h x (List.mem_cons_self x xs)]

theorem pyStrip_eq_self_of_forall {l : List Char}
    (h : ∀ c ∈ l, isPySpace c = false) : pyStrip l = l := by
  unfold pyStrip
  rw [dropWhile_eq_self_of_forall h]
  rw [dropWhile_eq_self_of_forall (fun c hc => h c (List.mem_reverse.mp hc))]
  simp

/-! ## Decimal digits of `Nat.repr` -/

theorem digitChar_isDigit {m : Nat} (h : m < 10) : (Nat.digitChar m).isDigit = true := by
  interval_cases m <;> decide

theorem charDigitVal_digitChar {m : Nat} (h : m < 10) :
    charDigitVal (Nat.digitChar m) = m := by
  interval_cases m <;> decide

theorem toDigitsCore_shift (b : Nat) :
    ∀ (fuel n : Nat) (ds : List Char),
      Nat.toDigitsCore b fuel n ds = Nat.toDigitsCore b fuel n [] ++ ds := by
  intro fuel
  induction fuel with
  | zero => intro n ds; simp [Nat.toDigitsCore]
  | succ fuel ih =>
    intro n ds
    simp only [Nat.toDigitsCore]
    split
    · simp
    · rw [ih (n / b) [Nat.digitChar (n % b)], ih (n / b) (Nat.digitChar (n % b) :: ds)]
      simp

theorem toDigitsCore_all_digits :
    ∀ (fuel n : Nat) (ds : List Char), (∀ c ∈ ds, c.isDigit = true) →
      ∀ c ∈ Nat.toDigitsCore 10 fuel n ds, c.isDigit = true := by
  intro fuel
  induction fuel with
  | zero => intro n ds hds; simpa [Nat.toDigitsCore] using hds
  | succ fuel ih =>
    intro n ds hds c hc
    simp only [Nat.toDigitsCore] at hc
    split at hc
    · rcases List.mem_cons.mp hc with h | h
      · exact h ▸ digitChar_isDigit (Nat.mod_lt _ (by norm_num))
      · exact hds c h
    · refine ih (n / 10) _ ?_ c hc
      intro d hd
      rcases List.mem_cons.mp hd with h | h
      · exact h ▸ digitChar_isDigit (Nat.mod_lt _ (by norm_num))
      · exact hds d h

theorem decimalValue_toDigitsCore :
    ∀ (fuel n : Nat), n < 10 ^ fuel →
      decimalValue (Nat.toDigitsCore 10 fuel n []) = n := by
  intro fuel
  induction fuel with
  | zero =>
    intro n h
    have : n = 0 := by simpa using h
    subst this
    rfl
  | succ fuel ih =>
    intro n h
    simp only [Nat.toDigitsCore]
    split
    · rename_i hdiv
      have hn : n < 10 := by
        rcases Nat.lt_or_ge n 10 with h' | h'
        · exact h'
        · exact absurd hdiv (by
            have := Nat.one_le_div_iff (by norm_num : 0 < 10) |>.mpr h'
            omega)
      show decimalValue [Nat.digitChar (n % 10)] = n
      simp only [decimalValue, List.foldl_cons, List.foldl_nil, Nat.zero_mul, Nat.zero_add]
      rw [Nat.mod_eq_of_lt hn, charDigitVal_digitChar hn]
    · rename_i hdiv
      rw [toDigitsCore_shift]
      have hbound : n / 10 < 10 ^ fuel := by
        rw [Nat.div_lt_iff_lt_mul (by norm_num : (0:Nat) < 10)]
        calc n < 10 ^ (fuel + 1) := h
        _ = 10 ^ fuel * 10 := by rw [Nat.pow_succ]
      have ihv := ih (n / 10) hbound
      unfold decimalValue at ihv ⊢
      rw [List.foldl_append, ihv]
      simp [charDigitVal_digitChar (Nat.mod_lt _ (by norm_num : (0:Nat) < 10))]
      omega

theorem natRepr_data (n : Nat) : (Nat.repr n).data = Nat.toDigits 10 n := rfl

theorem natRepr_all_digits (n : Nat) : ∀ c ∈ (Nat.repr n).data, c.isDigit = true := by
  rw [natRepr_data]
  exact toDigitsCore_all_digits (n + 1) n [] (by simp)

theorem natRepr_ne_nil (n : Nat) : (Nat.repr n).data ≠ [] := by
  rw [natRepr_data]
  show Nat.toDigitsCore 10 (n + 1) n [] ≠ []
  simp only [Nat.toDigitsCore]
  split
  · simp
  · rw [toDigitsCore_shift]
    simp

theorem decimalValue_natRepr (n : Nat) : decimalValue (Nat.repr n).data = n := by
  rw [natRepr_data]
  refine decimalValue_toDigitsCore (n + 1) n ?_
  calc n < 10 ^ n := Nat.lt_pow_self (by norm_num) n
  _ ≤ 10 ^ (n + 1) := Nat.pow_le_pow_right (by norm_num) (Nat.le_succ n)

theorem decimalDigits?_natRepr (n : Nat) :
    decimalDigits? (Nat.repr n).data = some n := by
  unfold decimalDigits?
  rw [if_pos ⟨natRepr_ne_nil n, List.all_eq_true.mpr (natRepr_all_digits n)⟩]
  rw [decimalValue_natRepr]

theorem isDigit_ne_of_not_digit {c x : Char} (h : c.isDigit = true)
    (hx : x.isDigit = false) : c ≠ x := by
  intro he
  rw [he, hx] at h
  cases h

theorem isDigit_not_space {c : Char} (h : c.isDigit = true) : isPySpace c = false := by
  have h1 : c ≠ ' ' := isDigit_ne_of_not_digit h (by decide)
  have h2 : c ≠ '\t' := isDigit_ne_of_not_digit h (by decide)
  have h3 : c ≠ '\n' := isDigit_ne_of_not_digit h (by decide)
  have h4 : c ≠ '\r' := isDigit_ne_of_not_digit h (by decide)
  have h5 : c ≠ '\x0b' := isDigit_ne_of_not_digit h (by decide)
  have h6 : c ≠ '\x0c' := isDigit_ne_of_not_digit h (by decide)
  simp [isPySpace, h1, h2, h3, h4, h5, h6]

theorem pyStrip_natRepr (n : Nat) : pyStrip (Nat.repr n).data = (Nat.repr n).data :=
  pyStrip_eq_self_of_forall (fun c hc => isDigit_not_space (natRepr_all_digits n c hc))

theorem notMem_natRepr_of_not_digit {x : Char} (hx : x.isDigit = false) (n : Nat) :
    x ∉ (Nat.repr n).data := by
  intro hmem
  exact absurd rfl (isDigit_ne_of_not_digit (natRepr_all_digits n x hmem) hx)

/-! ## The token-counter string round-trip -/

theorem splitFirst_self_append (c : Char) (p' post : List Char) :
    splitFirst (c :: p') ((c :: p') ++ post) = some ([], post) := by
  simpa using splitFirst_at_boundary c p' post [] (by simp)

theorem pySplit_mid (c : Char) (p' pre post : List Char) (hpre : c ∉ pre) :
    ∃ t, pySplit (c :: p') (pre ++ (c :: p') ++ post) = pre :: t := by
  unfold pySplit
  rw [List.append_assoc]
  rw [splitSeqAux_scan c p' pre _ ((c :: p') ++ post) [] hpre (by simp)]
  have harith : (pre ++ ((c :: p') ++ post)).length - pre.length =
      (p'.length + post.length) + 1 := by
    simp
  rw [harith, splitSeqAux_start]
  refine ⟨splitSeqAux (c :: p') (p'.length + post.length) post [], ?_⟩
  simp

theorem pySplit_mid_last (c : Char) (p' pre post : List Char)
    (hpre : c ∉ pre) (hpost : c ∉ post) :
    pySplit (c :: p') (pre ++ (c :: p') ++ post) = [pre, post] := by
  unfold pySplit
  rw [List.append_assoc]
  rw [splitSeqAux_scan c p' pre _ ((c :: p') ++ post) [] hpre (by simp)]
  have harith : (pre ++ ((c :: p') ++ post)).length - pre.length =
      (p'.length + post.length) + 1 := by
    simp
  rw [harith, splitSeqAux_start]
  rw [splitSeqAux_no_occurrence c p' post [] _ hpost (by omega)]
  simp

theorem parse_format_roundtrip (i o : Nat) :
    parseAccumulatedTokens (formatAccumulatedTokens i o) = (i, o) := by
  have hIi : 'I' ∉ (Nat.repr i).data := notMem_natRepr_of_not_digit (by decide) i
  have hCi : ',' ∉ (Nat.repr i).data := notMem_natRepr_of_not_digit (by decide) i
  have hOi : 'O' ∉ (Nat.repr i).data := notMem_natRepr_of_not_digit (by decide) i
  have hIo : 'I' ∉ (Nat.repr o).data := notMem_natRepr_of_not_digit (by decide) o
  have hOo : 'O' ∉ (Nat.repr o).data := notMem_natRepr_of_not_digit (by decide) o
  have hdata : (formatAccumulatedTokens i o).data =
      "Input Token: ".data ++
        ((Nat.repr i).data ++ (", Output Token: ".data ++ (Nat.repr o).data)) := by
    simp [formatAccumulatedTokens, List.append_assoc]
  have hrest : 'I' ∉
      ((Nat.repr i).data ++ (", Output Token: ".data ++ (Nat.repr o).data)) := by
    simp only [List.mem_append]
    rintro (h | h | h)
    · exact hIi h
    · exact absurd h (by decide)
    · exact hIo h
  have hguard : strContains (formatAccumulatedTokens i o) "Input Token" = true := by
    unfold strContains
    rw [hdata]
    have hshape :
        ("Input Token: ".data ++
          ((Nat.repr i).data ++ (", Output Token: ".data ++ (Nat.repr o).data)) : List Char) =
        ('I' :: "nput Token".data) ++
          (": ".data ++
            ((Nat.repr i).data ++ (", Output Token: ".data ++ (Nat.repr o).data))) := rfl
    rw [hshape, splitFirst_self_append]
    rfl
  -- the first split: everything after "Input Token: "
  have h1 : pySplit "Input Token: ".data (formatAccumulatedTokens i o).data =
      [[], (Nat.repr i).data ++ (", Output Token: ".data ++ (Nat.repr o).data)] := by
    rw [hdata]
    have h := pySplit_mid_last 'I' "nput Token: ".data []
      ((Nat.repr i).data ++ (", Output Token: ".data ++ (Nat.repr o).data))
      (by simp) hrest
    simpa using h
  -- the comma split of that remainder starts with the input digits
  have h2 : ∃ t, pySplit [',']
      ((Nat.repr i).data ++ (", Output Token: ".data ++ (Nat.repr o).data)) =
      (Nat.repr i).data :: t := by
    have h := pySplit_mid ',' [] (Nat.repr i).data
      (" Output Token: ".data ++ (Nat.repr o).data) hCi
    simpa using h
  -- the split after "Output Token: " ends with the output digits
  have h4 : pySplit "Output Token: ".data (formatAccumulatedTokens i o).data =
      ["Input Token: ".data ++ ((Nat.repr i).data ++ ", ".data), (Nat.repr o).data] := by
    have hpre2 : 'O' ∉ ("Input Token: ".data ++ ((Nat.repr i).data ++ ", ".data)) := by
      simp only [List.mem_append]
      rintro (h | h | h)
      · exact absurd h (by decide)
      · exact hOi h
      · exact absurd h (by decide)
    have h := pySplit_mid_last 'O' "utput Token: ".data
      ("Input Token: ".data ++ ((Nat.repr i).data ++ ", ".data)) (Nat.repr o).data
      hpre2 hOo
    rw [hdata]
    have hshape :
        ("Input Token: ".data ++
          ((Nat.repr i).data ++ (", Output Token: ".data ++ (Nat.repr o).data)) : List Char) =
        ("Input Token: ".data ++ ((Nat.repr i).data ++ ", ".data)) ++
          ('O' :: "utput Token: ".data) ++ (Nat.repr o).data := by
      simp only [List.append_assoc]
      rfl
    rw [hshape]
    exact h
  obtain ⟨t2, h2⟩ := h2
  unfold parseAccumulatedTokens
  rw [if_pos hguard, h1, h4]
  simp only [List.getD_cons_succ, List.getD_cons_zero, h2]
  rw [pyStrip_natRepr, pyStrip_natRepr, decimalDigits?_natRepr, decimalDigits?_natRepr]
  rfl

/-! ## Streaming assembly -/

theorem handleData_content (sink : Option Sink) (s : StreamingHandler) (ev : Event) :
    ((handleData sink s ev).1).content = s.content ++ (ev.data.getD "") := by
  cases hev : ev.data <;> cases sink <;> simp [handleData, hev]

theorem handleToolUse_content (sink : Option Sink) (s : StreamingHandler) (ev : Event) :
    ((handleToolUse sink s ev).1).content = s.content := by
  cases hev : ev.currentToolUse with
  | none => simp [handleToolUse, hev]
  | some name =>
    by_cases h1 : name = "" <;> by_cases h2 : s.currentTool = some name <;>
      cases sink <;> simp [handleToolUse, hev, h1, h2]

theorem handleComplete_content (sink : Option Sink) (s : StreamingHandler) (ev : Event) :
    ((handleComplete sink s ev).1).content = s.content := by
  by_cases h : ev.complete
  · cases sink with
    | none => cases s.currentTool <;> simp [handleComplete, h]
    | some k =>
      cases hct : s.currentTool with
      | none => simp [handleComplete, h, hct]
      | some tool => simp [handleComplete, h, hct]; split <;> simp
  · simp [handleComplete, h]

theorem callbackHandler_content (sink : Option Sink) (s : StreamingHandler) (ev : Event) :
    (callbackHandler sink s ev).content = s.content ++ (ev.data.getD "") := by
  unfold callbackHandler eventBody
  split
  · rename_i s1 hd
    have h1 := handleData_content sink s ev
    rw [hd] at h1
    exact h1
  · rename_i s1 hd
    have h1 := handleData_content sink s ev
    rw [hd] at h1
    split
    · rename_i s2 ht
      have h2 := handleToolUse_content sink s1 ev
      rw [ht] at h2
      show s2.content = _
      rw [h2]
      exact h1
    · rename_i s2 ht
      have h2 := handleToolUse_content sink s1 ev
      rw [ht] at h2
      rw [handleComplete_content, h2]
      exact h1

theorem runEvents_content (sink : Option Sink) :
    ∀ (evs : List Event) (s : StreamingHandler),
      (runEvents sink s evs).content = s.content ++ textDeltas evs := by
  intro evs
  induction evs with
  | nil => intro s; simp [runEvents, textDeltas]
  | cons ev evs ih =>
    intro s
    show (runEvents sink (callbackHandler sink s ev) evs).content = _
    rw [ih, callbackHandler_content, textDeltas, String.append_assoc]

/-- C3: for every event sequence ending in a completion event, the content
returned by `finalize` is exactly the ordered concatenation of all text-delta
payloads, whatever tool/completion events are interleaved and whatever sink is
attached. -/
theorem finalize_concats_textDeltas (sink : Option Sink) (evs : List Event)
    (_hend : ∃ e, evs.getLast? = some e ∧ e.complete = true) :
    ((processEvents sink evs).finalize).1 = textDeltas evs := by
  show (processEvents sink evs).content = textDeltas evs
  unfold processEvents
  rw [runEvents_content]
  show "" ++ textDeltas evs = textDeltas evs
  exact String.empty_append _

/-- Witness for C3: the specification's end-to-end scenario events assemble to
`"123 * 12 = 1476"`. -/
theorem finalize_concats_textDeltas_check :
    (∃ e, scenarioEvents.getLast? = some e ∧ e.complete = true) ∧
    ((processEvents none scenarioEvents).finalize).1 = textDeltas scenarioEvents ∧
    textDeltas scenarioEvents = "123 * 12 = 1476" :=
  ⟨⟨{ data := none, currentToolUse := none, complete := true }, by decide⟩,
    finalize_concats_textDeltas none scenarioEvents
      ⟨{ data := none, currentToolUse := none, complete := true }, by decide⟩,
    by decide⟩

/-- C10: after the stream has completed, finalizing twice returns the same
content both times (`finalize` reads `self.content` and mutates nothing). -/
theorem finalize_idempotent_after_complete (sink : Option Sink) (evs : List Event)
    (_hend : ∃ e, evs.getLast? = some e ∧ e.complete = true) :
    ((processEvents sink evs).finalize).1 =
      ((((processEvents sink evs).finalize).2).finalize).1 := rfl

/-- Witness for C10 at the scenario events. -/
theorem finalize_idempotent_after_complete_check :
    (∃ e, scenarioEvents.getLast? = some e ∧ e.complete = true) ∧
    ((processEvents none scenarioEvents).finalize).1 =
      ((((processEvents none scenarioEvents).finalize).2).finalize).1 :=
  ⟨⟨{ data := none, currentToolUse := none, complete := true }, by decide⟩,
    finalize_idempotent_after_complete none scenarioEvents
      ⟨{ data := none, currentToolUse := none, complete := true }, by decide⟩⟩

/-- C8: the accumulated buffer — and hence the content `finalize` returns —
is the same with any attached sink (including sinks whose display calls
raise) as in headless mode, and a raised display exception is absorbed by
`callback_handler`, which still returns the state the body accumulated. -/
theorem callback_content_independent_of_sink (k : Sink) (evs : List Event) :
    (processEvents (some k) evs).content = (processEvents none evs).content ∧
    ((processEvents (some k) evs).finalize).1 = textDeltas evs ∧
    ∀ (s : StreamingHandler) (ev : Event),
      callbackHandler (some k) s ev = (eventBody (some k) s ev).1 := by
  refine ⟨?_, ?_, fun s ev => rfl⟩
  · unfold processEvents
    rw [runEvents_content, runEvents_content]
  · show (processEvents (some k) evs).content = textDeltas evs
    unfold processEvents
    rw [runEvents_content]
    exact String.empty_append _

/-! ## Retry logic -/

theorem range_pow_shift (d f : Nat) (hf : 1 ≤ f) :
    d :: (List.range (f - 1)).map (fun j => d * 2 * 2 ^ j) =
      (List.range f).map (fun j => d * 2 ^ j) := by
  obtain ⟨f', rfl⟩ : ∃ f', f = f' + 1 := ⟨f - 1, by omega⟩
  simp only [Nat.add_sub_cancel]
  rw [List.range_succ_eq_map]
  simp only [List.map_cons, List.map_map, pow_zero, Nat.mul_one]
  congr 1
  apply List.map_congr_left
  intro j _
  simp [Function.comp, pow_succ]
  ring

theorem retryAux_all_retryable {α : Type} (backend : Nat → Except PyExc α)
    (maxRetries : Nat)
    (hb : ∀ n, ∃ e, backend n = .error e ∧ classify e ≠ .nonRetryable) :
    ∀ (fuel attempt delay calls : Nat) (acc : List Nat),
      attempt + fuel = maxRetries → 1 ≤ fuel →
      (retryAux backend maxRetries fuel attempt delay calls acc).outcome.isUnavailable
          = true ∧
      (retryAux backend maxRetries fuel attempt delay calls acc).calls = calls + fuel ∧
      (retryAux backend maxRetries fuel attempt delay calls acc).sleeps =
        acc.reverse ++ (List.range (fuel - 1)).map (fun j => delay * 2 ^ j) := by
  intro fuel
  induction fuel with
  | zero => intro attempt delay calls acc _ h1; omega
  | succ f ih =>
    intro attempt delay calls acc hsum _
    obtain ⟨e, hbe, hce⟩ := hb attempt
    by_cases hf : f = 0
    · subst hf
      have hlt : ¬ (attempt < maxRetries - 1) := by omega
      cases hc : classify e with
      | connTimeout =>
        simp [retryAux, hbe, hc, hlt, InvokeOutcome.isUnavailable]
      | retryableMsg =>
        simp [retryAux, hbe, hc, hlt, InvokeOutcome.isUnavailable]
      | nonRetryable => exact absurd hc hce
    · have hf1 : 1 ≤ f := by omega
      have hlt : attempt < maxRetries - 1 := by omega
      have hrec := ih (attempt + 1) (delay * 2) (calls + 1) (delay :: acc)
        (by omega) hf1
      cases hc : classify e with
      | connTimeout =>
        rw [retryAux]
        simp only [hbe, hc, hlt, if_true]
        refine ⟨hrec.1, by rw [hrec.2.1]; omega, ?_⟩
        rw [hrec.2.2]
        simp only [List.reverse_cons, List.append_assoc, List.singleton_append,
          Nat.succ_sub_one]
        rw [range_pow_shift delay f hf1]
      | retryableMsg =>
        rw [retryAux]
        simp only [hbe, hc, hlt, if_true]
        refine ⟨hrec.1, by rw [hrec.2.1]; omega, ?_⟩
        rw [hrec.2.2]
        simp only [List.reverse_cons, List.append_assoc, List.singleton_append,
          Nat.succ_sub_one]
        rw [range_pow_shift delay f hf1]
      | nonRetryable => exact absurd hc hce

/-- C1 (amended): with a positive retry budget, a backend raising a retryable
error on every attempt is called exactly `max_retries` times, the call then
fails with the wrapped retries-exhausted exception, and the delay slept before
attempt `k` (2 ≤ k ≤ max_retries) is `initial_delay * 2 ^ (k - 2)` — the
delays are exactly `initial_delay, 2*initial_delay, 4*initial_delay, ...`.
For `max_retries = 0` the loop body never runs and the function returns
`None` instead of failing, which is why the budget must be positive. -/
theorem retry_allRetryable_exhausts_budget {α : Type}
    (backend : Nat → Except PyExc α) (maxRetries initialDelay : Nat)
    (hb : ∀ n, ∃ e, backend n = .error e ∧ classify e ≠ .nonRetryable)
    (h1 : 1 ≤ maxRetries) :
    (callAgentWithRetry backend maxRetries initialDelay).outcome.isUnavailable
        = true ∧
    (callAgentWithRetry backend maxRetries initialDelay).calls = maxRetries ∧
    (callAgentWithRetry backend maxRetries initialDelay).sleeps =
      (List.range (maxRetries - 1)).map (fun j => initialDelay * 2 ^ j) ∧
    ∀ k, 2 ≤ k → k ≤ maxRetries →
      (callAgentWithRetry backend maxRetries initialDelay).sleeps[k - 2]? =
        some (initialDelay * 2 ^ (k - 2)) := by
  have h := retryAux_all_retryable backend maxRetries hb maxRetries 0 initialDelay 0 []
    (by omega) h1
  unfold callAgentWithRetry
  refine ⟨h.1, by rw [h.2.1]; omega, by rw [h.2.2]; simp, ?_⟩
  intro k hk2 hkm
  rw [h.2.2]
  simp only [List.nil_append, List.reverse_nil]
  rw [List.getElem?_map, List.getElem?_range (by omega : k - 2 < maxRetries - 1)]
  rfl

/-- Witness for C1 at the always-throttling backend with the source's default
parameters (3 retries, 2 second initial delay): exactly 3 calls, failure, and
sleeps `[2, 4]`. -/
theorem retry_allRetryable_exhausts_budget_check :
    (∀ n, ∃ e, alwaysThrottling n = .error e ∧ classify e ≠ .nonRetryable) ∧
    1 ≤ MAX_RETRIES ∧
    ((callAgentWithRetry alwaysThrottling MAX_RETRIES INITIAL_RETRY_DELAY).outcome.isUnavailable
        = true ∧
      (callAgentWithRetry alwaysThrottling MAX_RETRIES INITIAL_RETRY_DELAY).calls
        = MAX_RETRIES ∧
      (callAgentWithRetry alwaysThrottling MAX_RETRIES INITIAL_RETRY_DELAY).sleeps =
        (List.range (MAX_RETRIES - 1)).map (fun j => INITIAL_RETRY_DELAY * 2 ^ j) ∧
      ∀ k, 2 ≤ k → k ≤ MAX_RETRIES →
        (callAgentWithRetry alwaysThrottling MAX_RETRIES INITIAL_RETRY_DELAY).sleeps[k - 2]? =
          some (INITIAL_RETRY_DELAY * 2 ^ (k - 2))) :=
  ⟨fun _ => ⟨.generic "ThrottlingException: Rate exceeded", rfl, by decide⟩,
    by decide,
    retry_allRetryable_exhausts_budget alwaysThrottling MAX_RETRIES INITIAL_RETRY_DELAY
      (fun _ => ⟨.generic "ThrottlingException: Rate exceeded", rfl, by decide⟩)
      (by decide)⟩

/-- Counterexample to C1 as universally stated: with `max_retries = 0` and an
always-retryable backend, `call_agent_with_retry` makes no backend call and
returns `None` (the loop body never runs), so it does not fail with the
retries-exhausted exception. -/
theorem retry_zeroBudget_no_failure :
    (callAgentWithRetry alwaysThrottling 0 2).calls = 0 ∧
    (callAgentWithRetry alwaysThrottling 0 2).outcome = .noResult ∧
    (callAgentWithRetry alwaysThrottling 0 2).outcome.isUnavailable = false :=
  ⟨rfl, rfl, rfl⟩

/-- C4: a backend whose first attempt raises a non-retryable (unclassified)
error is called exactly once; no delay is slept and the same exception is
re-raised. -/
theorem retry_nonretryable_single_attempt {α : Type}
    (backend : Nat → Except PyExc α) (maxRetries initialDelay : Nat) (e : PyExc)
    (h1 : 1 ≤ maxRetries) (hb : backend 0 = .error e)
    (hc : classify e = .nonRetryable) :
    callAgentWithRetry backend maxRetries initialDelay =
      ⟨.raised e, 1, []⟩ := by
  obtain ⟨m, rfl⟩ : ∃ m, maxRetries = m + 1 := ⟨maxRetries - 1, by omega⟩
  unfold callAgentWithRetry
  rw [retryAux]
  simp [hb, hc]

/-- Witness for C4 at a backend raising an access-denied error, with the
source's default parameters. -/
theorem retry_nonretryable_single_attempt_check :
    1 ≤ MAX_RETRIES ∧
    alwaysDenied 0 = .error (.generic "AccessDeniedException: not authorized") ∧
    classify (.generic "AccessDeniedException: not authorized") = .nonRetryable ∧
    callAgentWithRetry alwaysDenied MAX_RETRIES INITIAL_RETRY_DELAY =
      ⟨.raised (.generic "AccessDeniedException: not authorized"), 1, []⟩ :=
  ⟨by decide, rfl, by decide,
    retry_nonretryable_single_attempt alwaysDenied MAX_RETRIES INITIAL_RETRY_DELAY
      (.generic "AccessDeniedException: not authorized") (by decide) rfl (by decide)⟩

/-! ## Context window -/

theorem filterMap_formatContext (l : List ChatMessage) :
    l.filterMap formatContextMessage = (l.filter isContextRole).map formatMessage := by
  induction l with
  | nil => rfl
  | cons m t ih =>
    by_cases h : isContextRole m = true <;>
      simp [formatContextMessage, List.filter_cons, h, ih]

/-- C2 (amended): for a positive window size `n`, the context view is the
order-preserving restriction of the *last `n` stored messages* to
user/assistant roles, formatted for the model.  Hence its length is the number
of user/assistant turns among the last `n` turns (not `min n` of the whole
history's user/assistant count: the slice is taken before the role filter),
every returned message has a user/assistant role, and when the history
contains only user/assistant turns the view is exactly the formatted
`min n |H|`-length suffix of the history. -/
theorem contextWindow_roleFiltered_window (n : Int) (history : List ChatMessage)
    (hn : 0 < n) :
    contextWindow n history =
      ((history.drop (history.length - n.toNat)).filter isContextRole).map
        formatMessage ∧
    (contextWindow n history).length =
      ((history.drop (history.length - n.toNat)).filter isContextRole).length ∧
    (∀ fm ∈ contextWindow n history, fm.role = "user" ∨ fm.role = "assistant") ∧
    ((∀ m ∈ history, isContextRole m = true) →
      (contextWindow n history).length = min n.toNat history.length ∧
      contextWindow n history =
        (history.drop (history.length - n.toNat)).map formatMessage) := by
  have hslice : pyLastSlice n history = history.drop (history.length - n.toNat) := by
    simp [pyLastSlice, hn]
  have hmain : contextWindow n history =
      ((history.drop (history.length - n.toNat)).filter isContextRole).map
        formatMessage := by
    unfold contextWindow
    rw [hslice, filterMap_formatContext]
  refine ⟨hmain, by rw [hmain, List.length_map], ?_, ?_⟩
  · intro fm hfm
    rw [hmain] at hfm
    rcases List.mem_map.mp hfm with ⟨m, hm, hfmt⟩
    have hrole : m.role = "user" ∨ m.role = "assistant" := by
      simpa [isContextRole] using List.of_mem_filter hm
    rcases hrole with h | h
    · exact Or.inl (by rw [← hfmt]; exact h)
    · exact Or.inr (by rw [← hfmt]; exact h)
  · intro hall
    have hfilter : (history.drop (history.length - n.toNat)).filter isContextRole =
        history.drop (history.length - n.toNat) := by
      apply List.filter_eq_self.mpr
      intro m hm
      exact hall m (List.drop_subset _ _ hm)
    constructor
    · rw [hmain, hfilter]
      simp [List.length_drop]
      omega
    · rw [hmain, hfilter]

/-- Witness for C2 at a three-user-message history with window size 2. -/
theorem contextWindow_roleFiltered_window_check :
    ((0 : Int) < 2) ∧
    (contextWindow 2 [mkUserMsg "a", mkUserMsg "b", mkUserMsg "c"] =
        (([mkUserMsg "a", mkUserMsg "b", mkUserMsg "c"].drop
            ([mkUserMsg "a", mkUserMsg "b", mkUserMsg "c"].length - (2 : Int).toNat)).filter
          isContextRole).map formatMessage ∧
      (contextWindow 2 [mkUserMsg "a", mkUserMsg "b", mkUserMsg "c"]).length =
        (([mkUserMsg "a", mkUserMsg "b", mkUserMsg "c"].drop
            ([mkUserMsg "a", mkUserMsg "b", mkUserMsg "c"].length - (2 : Int).toNat)).filter
          isContextRole).length ∧
      (∀ fm ∈ contextWindow 2 [mkUserMsg "a", mkUserMsg "b", mkUserMsg "c"],
        fm.role = "user" ∨ fm.role = "assistant") ∧
      ((∀ m ∈ [mkUserMsg "a", mkUserMsg "b", mkUserMsg "c"], isContextRole m = true) →
        (contextWindow 2 [mkUserMsg "a", mkUserMsg "b", mkUserMsg "c"]).length =
          min (2 : Int).toNat [mkUserMsg "a", mkUserMsg "b", mkUserMsg "c"].length ∧
        contextWindow 2 [mkUserMsg "a", mkUserMsg "b", mkUserMsg "c"] =
          ([mkUserMsg "a", mkUserMsg "b", mkUserMsg "c"].drop
            ([mkUserMsg "a", mkUserMsg "b", mkUserMsg "c"].length - (2 : Int).toNat)).map
            formatMessage)) :=
  ⟨by decide,
    contextWindow_roleFiltered_window 2 [mkUserMsg "a", mkUserMsg "b", mkUserMsg "c"]
      (by decide)⟩

/-- Counterexample to C2 as stated: with the source's window size 10 and a
history of ten user messages followed by one diagnostic (`system`) message,
the view has 9 messages while `min(10, user/assistant count)` is 10 — the
diagnostic turn inside the slice displaces a user turn, because the source
slices the last 10 messages *before* filtering by role.  The view is also not
a suffix of the history (the history ends with the diagnostic turn). -/
theorem contextWindow_minCount_refuted :
    (getContextMessages ceHistory).length = 9 ∧
    min MAX_CONTEXT_MESSAGES.toNat ((ceHistory.filter isContextRole).length) = 10 := by
  constructor
  · decide
  · decide

/-- C9 (amended): the window function is total and an empty history yields an
empty view for every size; but a size of `0` yields the whole (role-filtered,
formatted) history — Python's `history[-0:]` is `history[0:]` — and a negative
size `n` drops the first `|n|` messages, so sizes `≤ 0` do not generally yield
an empty view. -/
theorem contextWindow_empty_and_nonpositive (n : Int) (history : List ChatMessage) :
    contextWindow n [] = [] ∧
    contextWindow 0 history = history.filterMap formatContextMessage ∧
    (n < 0 → contextWindow n history =
      (history.drop (-n).toNat).filterMap formatContextMessage) := by
  refine ⟨?_, ?_, ?_⟩
  · unfold contextWindow pyLastSlice
    split
    · simp
    · split <;> simp
  · simp [contextWindow, pyLastSlice]
  · intro h
    have h1 : ¬ (0 : Int) < n := by omega
    have h2 : ¬ n = 0 := by omega
    simp [contextWindow, pyLastSlice, h1, h2]

/-- Witness for C9 at size `-1` and a two-message history: one message is
dropped from the front, not an empty view. -/
theorem contextWindow_empty_and_nonpositive_check :
    ((-1 : Int) < 0) ∧
    contextWindow (-1) [mkUserMsg "a", mkUserMsg "b"] =
      ([mkUserMsg "a", mkUserMsg "b"].drop (-(-1) : Int).toNat).filterMap
        formatContextMessage :=
  ⟨by decide,
    (contextWindow_empty_and_nonpositive (-1) [mkUserMsg "a", mkUserMsg "b"]).2.2
      (by decide)⟩

/-- Counterexample to C9 as stated: a window size of `0` on a non-empty
history returns the whole formatted history, not an empty view. -/
theorem contextWindow_zero_size_refuted :
    contextWindow 0 [mkUserMsg "hi"] =
      [{ role := "user", content := [⟨"hi"⟩] }] ∧
    contextWindow 0 [mkUserMsg "hi"] ≠ [] := by
  constructor
  · decide
  · decide

/-! ## Thinking-trace extraction -/

theorem removeThinkingAux_no_open (f : Nat) (l : List Char)
    (h : splitFirst thinkingOpenTag l = none) : removeThinkingAux f l = l := by
  cases f <;> simp [removeThinkingAux, h]

/-- C6 (amended): when the assembled text contains exactly one well-formed
delimited reasoning trace — `a ++ "<thinking>" ++ b ++ "</thinking>" ++ c`
with no `'<'` in `a`, `b`, `c` (so neither delimiter occurs anywhere else,
and deleting the span cannot splice a new delimiter together) and no `'#'`
(so markdown sanitization is the identity) — the extracted trace is the
whitespace-normalized, stripped `b`, the user-visible reply is the stripped
`a ++ c` and contains no delimited segment, and the extracted trace is
retained as a prefix of the diagnostic thinking channel.  Without the
no-splicing condition the claim fails: deleting a span can juxtapose text
into a new `<thinking>...</thinking>` segment in the visible reply. -/
theorem cleanResponse_single_trace (a b c : String)
    (hla : '<' ∉ a.data) (hlb : '<' ∉ b.data) (hlc : '<' ∉ c.data)
    (hha : '#' ∉ a.data) (hhb : '#' ∉ b.data) (hhc : '#' ∉ c.data) :
    extractThinking (a ++ "<thinking>" ++ b ++ "</thinking>" ++ c) =
      ⟨wsCollapse (pyStrip b.data)⟩ ∧
    cleanResponse (a ++ "<thinking>" ++ b ++ "</thinking>" ++ c) =
      ⟨pyStrip (a.data ++ c.data)⟩ ∧
    (¬ ∃ x y z : List Char,
      (cleanResponse (a ++ "<thinking>" ++ b ++ "</thinking>" ++ c)).data =
        x ++ thinkingOpenTag ++ y ++ thinkingCloseTag ++ z) ∧
    (∀ msec, combineThinkingWithMetrics
        (extractThinking (a ++ "<thinking>" ++ b ++ "</thinking>" ++ c)) msec =
      extractThinking (a ++ "<thinking>" ++ b ++ "</thinking>" ++ c) ++ msec) := by
  have hs : (a ++ "<thinking>" ++ b ++ "</thinking>" ++ c).data =
      a.data ++ thinkingOpenTag ++ (b.data ++ (thinkingCloseTag ++ c.data)) := by
    simp only [String.data_append, List.append_assoc]
    rfl
  have hb1 : splitFirst thinkingOpenTag
      (a.data ++ thinkingOpenTag ++ (b.data ++ (thinkingCloseTag ++ c.data))) =
      some (a.data, b.data ++ (thinkingCloseTag ++ c.data)) :=
    splitFirst_at_boundary '<' "thinking>".data _ a.data hla
  have hb2 : splitFirst thinkingCloseTag (b.data ++ (thinkingCloseTag ++ c.data)) =
      some (b.data, c.data) := by
    have h := splitFirst_at_boundary '<' "/thinking>".data c.data b.data hlb
    simpa using h
  have hnoc : splitFirst thinkingOpenTag c.data = none :=
    splitFirst_none_of_notMem '<' "thinking>".data c.data hlc
  -- markdown sanitization is the identity on the two produced strings
  have hsan1 : sanitizeMarkdown ⟨wsCollapse (pyStrip b.data)⟩ =
      (⟨wsCollapse (pyStrip b.data)⟩ : String) := by
    apply sanitizeMarkdown_id
    intro hmem
    rcases mem_wsCollapseAux_imp false (pyStrip b.data) '#' hmem with h | h
    · cases h
    · exact hhb (mem_pyStrip_imp h)
  have hsan2 : sanitizeMarkdown ⟨pyStrip (a.data ++ c.data)⟩ =
      (⟨pyStrip (a.data ++ c.data)⟩ : String) := by
    apply sanitizeMarkdown_id
    intro hmem
    rcases List.mem_append.mp (mem_pyStrip_imp hmem) with h | h
    · exact hha h
    · exact hhc h
  have hext : extractThinking (a ++ "<thinking>" ++ b ++ "</thinking>" ++ c) =
      ⟨wsCollapse (pyStrip b.data)⟩ := by
    unfold extractThinking
    rw [hs]
    simp only [hb1, hb2]
    exact hsan1
  have hclean : cleanResponse (a ++ "<thinking>" ++ b ++ "</thinking>" ++ c) =
      ⟨pyStrip (a.data ++ c.data)⟩ := by
    unfold cleanResponse removeThinking
    rw [hs]
    have hpos : 0 < (a.data ++ thinkingOpenTag ++
        (b.data ++ (thinkingCloseTag ++ c.data))).length := by
      simp [thinkingOpenTag]
    obtain ⟨k, hk⟩ : ∃ k, (a.data ++ thinkingOpenTag ++
        (b.data ++ (thinkingCloseTag ++ c.data))).length = k + 1 :=
      ⟨(a.data ++ thinkingOpenTag ++ (b.data ++ (thinkingCloseTag ++ c.data))).length - 1,
        by omega⟩
    rw [hk]
    simp only [removeThinkingAux, hb1, hb2]
    rw [removeThinkingAux_no_open k c.data hnoc]
    exact hsan2
  refine ⟨hext, hclean, ?_, fun msec => rfl⟩
  rintro ⟨x, y, z, hdec⟩
  have hlt : '<' ∈ (cleanResponse (a ++ "<thinking>" ++ b ++ "</thinking>" ++ c)).data := by
    rw [hdec]
    simp [thinkingOpenTag]
  rw [hclean] at hlt
  rcases List.mem_append.mp (mem_pyStrip_imp hlt) with h | h
  · exact hla h
  · exact hlc h

/-- Witness for C6 at `"pre " ++ "<thinking>" ++ "hidden" ++ "</thinking>" ++ " post"`. -/
theorem cleanResponse_single_trace_check :
    ('<' ∉ "pre ".data ∧ '#' ∉ "pre ".data) ∧
    cleanResponse ("pre " ++ "<thinking>" ++ "hidden" ++ "</thinking>" ++ " post") =
      ⟨pyStrip ("pre ".data ++ " post".data)⟩ :=
  ⟨⟨by decide, by decide⟩,
    (cleanResponse_single_trace "pre " "hidden" " post" (by decide) (by decide)
      (by decide) (by decide) (by decide) (by decide)).2.1⟩

/-- Counterexample to C6 as stated: deleting the lazily matched span of
`"<think<thinking>x</thinking>ing>data</thinking>"` splices the surrounding
text into a fresh `<thinking>data</thinking>`, so the user-visible reply
still contains a delimited segment (`re.sub` does not rescan its output). -/
theorem cleanResponse_segment_refuted :
    cleanResponse "<think<thinking>x</thinking>ing>data</thinking>" =
      "<thinking>data</thinking>" ∧
    ∃ x y z : List Char,
      (cleanResponse "<think<thinking>x</thinking>ing>data</thinking>").data =
        x ++ thinkingOpenTag ++ y ++ thinkingCloseTag ++ z :=
  ⟨by decide, ⟨[], "data".data, [], by decide⟩⟩

/-! ## Usage metrics -/

theorem manual_foldl_ge (e p : ℚ) (he : 0 ≤ e) (hp : 0 ≤ p) :
    ∀ (counts : List Nat) (init : ℚ),
      init ≤ counts.foldl (fun acc cc => acc + e / 60 * (p / 60 * cc)) init := by
  intro counts
  induction counts with
  | nil => intro init; simp
  | cons cc t ih =>
    intro init
    refine le_trans ?_ (ih (init + e / 60 * (p / 60 * cc)))
    have h : (0 : ℚ) ≤ e / 60 * (p / 60 * cc) := by positivity
    linarith

theorem manualCostOfTools_nonneg (e p : ℚ) (he : 0 ≤ e) (hp : 0 ≤ p)
    (counts : List Nat) : 0 ≤ manualCostOfTools e p counts :=
  manual_foldl_ge e p he hp counts 0

theorem perCallCost_nonneg (i o : Nat) : 0 ≤ perCallCost i o := by
  unfold perCallCost PRICE_INPUT PRICE_OUTPUT
  positivity

/-- C5: accumulating the per-call usages `(10, 20)` and `(5, 7)` into the
freshly initialized session yields session totals of 15 input and 27 output
tokens, and a session cost equal to the sum of the two per-call costs at the
fixed rates. -/
theorem metrics_accumulate_two_calls :
    (extractMetrics (usageOnlyResponse 5 7)
        (extractMetrics (usageOnlyResponse 10 20) initSessionState)).accumulatedTokens =
      "Input Token: 15, Output Token: 27" ∧
    parseAccumulatedTokens
        (extractMetrics (usageOnlyResponse 5 7)
          (extractMetrics (usageOnlyResponse 10 20) initSessionState)).accumulatedTokens =
      (15, 27) ∧
    (extractMetrics (usageOnlyResponse 5 7)
        (extractMetrics (usageOnlyResponse 10 20) initSessionState)).accumulatedCost =
      perCallCost 10 20 + perCallCost 5 7 := by
  refine ⟨by decide, by decide, ?_⟩
  show (0 : ℚ) + perCallCost 10 20 + perCallCost 5 7 = perCallCost 10 20 + perCallCost 5 7
  rw [zero_add]

/-- C7 (amended): each metrics extraction only adds to the session counters —
the parsed token totals, the accumulated cost and (for non-negative manual
cost parameters) the accumulated manual cost never decrease — but the
explicit session-clear operation `clear_history` empties only the chat
history and thinking flags and leaves all accumulated counters unchanged:
no operation resets them to zero. -/
theorem sessionCounters_monotone_clear_preserves (r : AgentResponse) (s : AppSession)
    (heng : 0 ≤ s.manualEngineerCost) (hprep : 0 ≤ s.manualApiPrepTime) :
    (parseAccumulatedTokens s.accumulatedTokens).1 ≤
      (parseAccumulatedTokens (extractMetrics r s).accumulatedTokens).1 ∧
    (parseAccumulatedTokens s.accumulatedTokens).2 ≤
      (parseAccumulatedTokens (extractMetrics r s).accumulatedTokens).2 ∧
    s.accumulatedCost ≤ (extractMetrics r s).accumulatedCost ∧
    s.accumulatedManualCost ≤ (extractMetrics r s).accumulatedManualCost ∧
    (clearHistory s).accumulatedTokens = s.accumulatedTokens ∧
    (clearHistory s).accumulatedCost = s.accumulatedCost ∧
    (clearHistory s).accumulatedManualCost = s.accumulatedManualCost ∧
    (clearHistory s).chatHistory = [] ∧ (clearHistory s).showThinking = [] := by
  rcases r with ⟨mopt⟩
  cases mopt with
  | none =>
    have hex : extractMetrics ⟨none⟩ s = s := rfl
    rw [hex]
    exact ⟨le_refl _, le_refl _, le_refl _, le_refl _, rfl, rfl, rfl, rfl, rfl⟩
  | some m =>
    rcases m with ⟨usage, tools⟩
    cases usage with
    | none =>
      cases tools with
      | none =>
        have hex : extractMetrics ⟨some ⟨none, none⟩⟩ s =
            { s with accumulatedManualCost := s.accumulatedManualCost + 0 } := rfl
        rw [hex]
        refine ⟨le_refl _, le_refl _, le_refl _, by simp, rfl, rfl, rfl, rfl, rfl⟩
      | some counts =>
        have hex : extractMetrics ⟨some ⟨none, some counts⟩⟩ s =
            { s with accumulatedManualCost := s.accumulatedManualCost +
                manualCostOfTools s.manualEngineerCost s.manualApiPrepTime counts } := rfl
        rw [hex]
        refine ⟨le_refl _, le_refl _, le_refl _, ?_, rfl, rfl, rfl, rfl, rfl⟩
        show s.accumulatedManualCost ≤ s.accumulatedManualCost +
          manualCostOfTools s.manualEngineerCost s.manualApiPrepTime counts
        have h := manualCostOfTools_nonneg _ _ heng hprep counts
        linarith
    | some p =>
      rcases p with ⟨i, o⟩
      have hparse : parseAccumulatedTokens (formatAccumulatedTokens
          ((parseAccumulatedTokens s.accumulatedTokens).1 + i)
          ((parseAccumulatedTokens s.accumulatedTokens).2 + o)) =
          ((parseAccumulatedTokens s.accumulatedTokens).1 + i,
            (parseAccumulatedTokens s.accumulatedTokens).2 + o) :=
        parse_format_roundtrip _ _
      have hcost := perCallCost_nonneg i o
      cases tools with
      | none =>
        have hex : extractMetrics ⟨some ⟨some (i, o), none⟩⟩ s =
            { s with
              accumulatedTokens := formatAccumulatedTokens
                ((parseAccumulatedTokens s.accumulatedTokens).1 + i)
                ((parseAccumulatedTokens s.accumulatedTokens).2 + o)
              accumulatedCost := s.accumulatedCost + perCallCost i o
              accumulatedManualCost := s.accumulatedManualCost + 0 } := rfl
        rw [hex]
        refine ⟨?_, ?_, ?_, ?_, rfl, rfl, rfl, rfl, rfl⟩
        · show (parseAccumulatedTokens s.accumulatedTokens).1 ≤
            (parseAccumulatedTokens (formatAccumulatedTokens
              ((parseAccumulatedTokens s.accumulatedTokens).1 + i)
              ((parseAccumulatedTokens s.accumulatedTokens).2 + o))).1
          rw [hparse]
          exact Nat.le_add_right _ _
        · show (parseAccumulatedTokens s.accumulatedTokens).2 ≤
            (parseAccumulatedTokens (formatAccumulatedTokens
              ((parseAccumulatedTokens s.accumulatedTokens).1 + i)
              ((parseAccumulatedTokens s.accumulatedTokens).2 + o))).2
          rw [hparse]
          exact Nat.le_add_right _ _
        · show s.accumulatedCost ≤ s.accumulatedCost + perCallCost i o
          linarith
        · show s.accumulatedManualCost ≤ s.accumulatedManualCost + 0
          simp
      | some counts =>
        have hex : extractMetrics ⟨some ⟨some (i, o), some counts⟩⟩ s =
            { s with
              accumulatedTokens := formatAccumulatedTokens
                ((parseAccumulatedTokens s.accumulatedTokens).1 + i)
                ((parseAccumulatedTokens s.accumulatedTokens).2 + o)
              accumulatedCost := s.accumulatedCost + perCallCost i o
              accumulatedManualCost := s.accumulatedManualCost +
                manualCostOfTools s.manualEngineerCost s.manualApiPrepTime counts } := rfl
        rw [hex]
        have hman := manualCostOfTools_nonneg _ _ heng hprep counts
        refine ⟨?_, ?_, ?_, ?_, rfl, rfl, rfl, rfl, rfl⟩
        · show (parseAccumulatedTokens s.accumulatedTokens).1 ≤
            (parseAccumulatedTokens (formatAccumulatedTokens
              ((parseAccumulatedTokens s.accumulatedTokens).1 + i)
              ((parseAccumulatedTokens s.accumulatedTokens).2 + o))).1
          rw [hparse]
          exact Nat.le_add_right _ _
        · show (parseAccumulatedTokens s.accumulatedTokens).2 ≤
            (parseAccumulatedTokens (formatAccumulatedTokens
              ((parseAccumulatedTokens s.accumulatedTokens).1 + i)
              ((parseAccumulatedTokens s.accumulatedTokens).2 + o))).2
          rw [hparse]
          exact Nat.le_add_right _ _
        · show s.accumulatedCost ≤ s.accumulatedCost + perCallCost i o
          linarith
        · show s.accumulatedManualCost ≤ s.accumulatedManualCost +
            manualCostOfTools s.manualEngineerCost s.manualApiPrepTime counts
          linarith

/-- Witness for C7: one extraction step from the initialized session, with
the default manual-cost parameters. -/
theorem sessionCounters_monotone_clear_preserves_check :
    (0 ≤ initSessionState.manualEngineerCost) ∧
    (0 ≤ initSessionState.manualApiPrepTime) ∧
    ((parseAccumulatedTokens initSessionState.accumulatedTokens).1 ≤
      (parseAccumulatedTokens
        (extractMetrics (usageOnlyResponse 10 20) initSessionState).accumulatedTokens).1 ∧
    (parseAccumulatedTokens initSessionState.accumulatedTokens).2 ≤
      (parseAccumulatedTokens
        (extractMetrics (usageOnlyResponse 10 20) initSessionState).accumulatedTokens).2 ∧
    initSessionState.accumulatedCost ≤
      (extractMetrics (usageOnlyResponse 10 20) initSessionState).accumulatedCost ∧
    initSessionState.accumulatedManualCost ≤
      (extractMetrics (usageOnlyResponse 10 20) initSessionState).accumulatedManualCost ∧
    (clearHistory initSessionState).accumulatedTokens =
      initSessionState.accumulatedTokens ∧
    (clearHistory initSessionState).accumulatedCost =
      initSessionState.accumulatedCost ∧
    (clearHistory initSessionState).accumulatedManualCost =
      initSessionState.accumulatedManualCost ∧
    (clearHistory initSessionState).chatHistory = [] ∧
    (clearHistory initSessionState).showThinking = []) :=
  ⟨by decide, by decide,
    sessionCounters_monotone_clear_preserves (usageOnlyResponse 10 20) initSessionState
      (by decide) (by decide)⟩

/-- Counterexample to C7 as stated: after one extraction the session cost is
the (nonzero) per-call cost, and the explicit session clear leaves it at that
value instead of resetting it to the initial zero. -/
theorem clearHistory_keeps_accumulated_cost :
    (clearHistory (extractMetrics (usageOnlyResponse 10 20) initSessionState)).accumulatedCost =
      perCallCost 10 20 ∧
    perCallCost 10 20 ≠ 0 ∧
    initSessionState.accumulatedCost = 0 := by
  refine ⟨?_, ?_, rfl⟩
  · show (0 : ℚ) + perCallCost 10 20 = perCallCost 10 20
    rw [zero_add]
  · unfold perCallCost PRICE_INPUT PRICE_OUTPUT
    norm_num

end DPAgent
